import Mathlib

/-!
Shallow embedding of `src/scripts/mcps.py`, a utility that updates a JSON
file holding a list of repository entries (`mcpRepos`), and proofs about it.

JSON values are modelled by the inductive `Json`; Python dicts (as produced
by `json.load`) are association lists with unique keys, in insertion order.
JSON numbers are modelled as integers: no claim concerns numeric values, a
number only ever appears as a wrong-typed field.  File I/O is modelled by an
environment `Env` recording the outcome of the read step (`open` +
`json.load`) and of the write step (`open` + `json.dump`); exceptions are
modelled by `Except String`.
-/

/-- A JSON value, as produced by Python `json.load`. -/
inductive Json where
  | null
  | bool (b : Bool)
  | num (n : Int)
  | str (s : String)
  | arr (elems : List Json)
  | obj (fields : List (String × Json))

/-- Whether a JSON value is an object (a Python dict). -/
def Json.isObj : Json → Bool
  | .obj _ => true
  | _ => false

/-- Python dict assignment `d[k] = v`: replace the value at the (unique)
occurrence of key `k`, keeping its position, or append `(k, v)` at the end
when the key is absent. -/
def dictSet : List (String × Json) → String → Json → List (String × Json)
  | [], k, v => [(k, v)]
  | (k', v') :: rest, k, v =>
      if k' = k then (k', v) :: rest else (k', v') :: dictSet rest k v

/-- Python `s.split(sep)` for a one-character separator, on the character
list of the string: `"".split(sep) == ['']`, and every occurrence of the
separator starts a new (possibly empty) segment.  The result is never the
empty list. -/
def pySplit (sep : Char) : List Char → List (List Char)
  | [] => [[]]
  | c :: cs =>
      match pySplit sep cs with
      | [] => [[]]
      | g :: gs => if c = sep then [] :: g :: gs else (c :: g) :: gs

/-- `repo_name = repo_url.split('/')[-1]` (line 19 of the source): the last
segment of the URL split on `/`.  `pySplit` never returns `[]`, so the
default of `getLastD` is never used. -/
def repoName (url : String) : String :=
  ⟨(pySplit '/' url.data).getLastD []⟩

/-- `new_entry = {'name': repo_name, 'url': repo_url, 'description': description}`
(line 20 of the source). -/
def newEntry (repo_url description : String) : Json :=
  .obj [("name", .str (repoName repo_url)),
        ("url", .str repo_url),
        ("description", .str description)]

/-- The loop condition `repo.get('url') == repo_url`: the entry is a dict
whose `url` key holds exactly the string `repo_url`.  (`dict.get` returns
`None` when the key is absent; comparing `None`, or a non-string value, to
the string `repo_url` is `False` in Python, never an error.) -/
def isMatch (repo_url : String) : Json → Bool
  | .obj f =>
      match f.lookup "url" with
      | some (.str s) => s == repo_url
      | _ => false
  | _ => false

/-- The loop body `repo['description'] = description` on a matching entry. -/
def setDesc (description : String) : Json → Json
  | .obj f => .obj (dictSet f "description" (.str description))
  | x => x

/-- One loop iteration as a pure function: update the entry when it matches,
leave it alone otherwise. -/
def updEntry (repo_url description : String) (x : Json) : Json :=
  if isMatch repo_url x then setDesc description x else x

/-- The `for repo in data.get('mcpRepos', [])` loop (lines 11-15 of the
source) over a Python list: returns the updated list together with
`entry_exists`.  A non-dict element raises (`AttributeError`: only dicts
have `.get`), which the surrounding `try` turns into failure; the raise
happens at the offending element, but since an exception discards the
in-memory document (nothing is written), only the error itself is
observable and the partially mutated list is not modelled. -/
def processRepos (repo_url description : String) : List Json → Except String (List Json × Bool)
  | [] => .ok ([], false)
  | repo :: rest =>
      match repo with
      | .obj f =>
          match processRepos repo_url description rest with
          | .error e => .error e
          | .ok (rest', b) =>
              .ok (updEntry repo_url description (.obj f) :: rest',
                   (isMatch repo_url (.obj f) || b))
      | _ => .error "AttributeError: object has no attribute get"

/-- The in-memory mutation performed by `update_mcps` between the read and
the write (lines 11-23 of the source), on an already parsed document:

* `data.get('mcpRepos', [])` — a missing key yields the default `[]`
  (empty loop, no match);
* iterate, updating the description of every entry whose `url` equals
  `repo_url`;
* when no match occurred, append `new_entry`, first creating the
  `mcpRepos` key when it is absent;
* a non-object document has no `.get` (`AttributeError`); a present but
  non-list `mcpRepos` value always raises while being iterated as a list
  of dicts or appended to (`TypeError` on a number, boolean or null,
  `AttributeError` on the elements of a string or dict, or on append) —
  the precise Python exception differs by case but an exception is raised
  in every such case, and the error taxonomy is flat. -/
def update_data (data : Json) (repo_url description : String) : Except String Json :=
  match data with
  | .obj fields =>
      match fields.lookup "mcpRepos" with
      | none =>
          .ok (.obj (dictSet fields "mcpRepos" (.arr [newEntry repo_url description])))
      | some (.arr xs) =>
          match processRepos repo_url description xs with
          | .error e => .error e
          | .ok (xs', b) =>
              if b then
                .ok (.obj (dictSet fields "mcpRepos" (.arr xs')))
              else
                .ok (.obj (dictSet fields "mcpRepos"
                       (.arr (xs' ++ [newEntry repo_url description]))))
      | some _ => .error "TypeError: mcpRepos value is not a list"
  | _ => .error "AttributeError: object has no attribute get"

/-- The outcome of the two I/O steps of `update_mcps` on the target file:
`readResult` is what `open(json_file) / json.load` produces (an exception
or a parsed document), `writeError` is the exception raised by
`open(json_file, 'w') / json.dump`, when any. -/
structure Env where
  readResult : Except String Json
  writeError : Option String

/-- The message printed to stderr: `f'Error updating JSON file: {e}'`. -/
def errMsg (e : String) : String := "Error updating JSON file: " ++ e

/-- `update_mcps(json_file, repo_url, description)` (lines 4-32 of the
source).  The file path argument is absorbed into `env`.  Returns the
boolean result, the document written back to the file (`none` when no
complete write happened; on a write error the file content is unspecified
and not modelled), and the lines printed to stderr.  The `try`/`except`
catches every exception from read, mutate and write alike. -/
def update_mcps (env : Env) (repo_url description : String) :
    Bool × Option Json × List String :=
  match env.readResult with
  | .error e => (false, none, [errMsg e])
  | .ok data =>
      match update_data data repo_url description with
      | .error e => (false, none, [errMsg e])
      | .ok d =>
          match env.writeError with
          | some e => (false, none, [errMsg e])
          | none => (true, some d, [])

/-- The usage line printed by the `__main__` block. -/
def usageMsg : String := "Usage: python mcps.py JSON_FILE REPO_URL DESCRIPTION"

/-- Observable outcome of one process run: exit code, stdout lines, stderr
lines, and the document written to the file (`none` when the file was not
(completely) written). -/
structure RunResult where
  exitCode : Nat
  stdout : List String
  stderr : List String
  written : Option Json

/-- The `if __name__ == "__main__":` block (lines 34-45 of the source).
`argv` includes the program name at index 0, as `sys.argv` does; fewer
than 4 elements means fewer than 3 positional arguments.  Falling off the
end of the script is exit code 0. -/
def run_main (argv : List String) (env : Env) : RunResult :=
  if argv.length < 4 then
    ⟨1, [usageMsg], [], none⟩
  else
    match update_mcps env (argv.getD 2 "") (argv.getD 3 "") with
    | (true, w, errs) => ⟨0, [], errs, w⟩
    | (false, w, errs) => ⟨1, [], errs, w⟩

/-- The document state transformer induced by one invocation on the file
content: on success the mutated document is written back, on any exception
nothing is written (the write only starts after the mutation succeeded)
and the file keeps its previous content. -/
def applyUpdate (repo_url description : String) (data : Json) : Json :=
  match update_data data repo_url description with
  | .ok d => d
  | .error _ => data

/-! ### Lemmas about `List.lookup` and `dictSet` -/

theorem lookup_cons_self (k : String) (v : Json) (rest : List (String × Json)) :
    List.lookup k ((k, v) :: rest) = some v := by
  simp [List.lookup]

theorem lookup_cons_ne (k k' : String) (v : Json) (rest : List (String × Json))
    (h : k ≠ k') : List.lookup k ((k', v) :: rest) = List.lookup k rest := by
  have hb : (k == k') = false := beq_eq_false_iff_ne.mpr h
  simp [List.lookup, hb]

theorem dictSet_lookup_self (f : List (String × Json)) (k : String) (v : Json) :
    (dictSet f k v).lookup k = some v := by
  induction f with
  | nil => simp [dictSet, List.lookup]
  | cons p rest ih =>
      obtain ⟨k', v'⟩ := p
      by_cases h : k' = k
      · subst h
        simp [dictSet, lookup_cons_self]
      · simp [dictSet, h, lookup_cons_ne k k' _ _ (Ne.symm h), ih]

theorem dictSet_lookup_ne (f : List (String × Json)) (k k' : String) (v : Json)
    (h : k' ≠ k) : (dictSet f k v).lookup k' = f.lookup k' := by
  induction f with
  | nil =>
      show List.lookup k' ((k, v) :: []) = List.lookup k' []
      rw [lookup_cons_ne k' k _ _ h]
  | cons p rest ih =>
      obtain ⟨k'', v''⟩ := p
      by_cases hk : k'' = k
      · subst hk
        simp [dictSet, lookup_cons_ne k' k'' _ _ h]
      · by_cases hk' : k' = k''
        · subst hk'
          simp [dictSet, hk, lookup_cons_self]
        · simp [dictSet, hk, lookup_cons_ne k' k'' _ _ hk', ih]

theorem dictSet_of_lookup_none (f : List (String × Json)) (k : String) (v : Json)
    (h : f.lookup k = none) : dictSet f k v = f ++ [(k, v)] := by
  induction f with
  | nil => simp [dictSet]
  | cons p rest ih =>
      obtain ⟨k', v'⟩ := p
      by_cases hk : k' = k
      · subst hk
        rw [lookup_cons_self] at h
        exact absurd h (by simp)
      · rw [lookup_cons_ne k k' _ _ (Ne.symm hk)] at h
        simp [dictSet, hk, ih h]

theorem dictSet_of_lookup_some (f : List (String × Json)) (k : String) (v : Json)
    (h : f.lookup k = some v) : dictSet f k v = f := by
  induction f with
  | nil => simp [List.lookup] at h
  | cons p rest ih =>
      obtain ⟨k', v'⟩ := p
      by_cases hk : k' = k
      · subst hk
        rw [lookup_cons_self] at h
        injection h with h
        simp [dictSet, h]
      · rw [lookup_cons_ne k k' _ _ (Ne.symm hk)] at h
        simp [dictSet, hk, ih h]

theorem dictSet_dictSet (f : List (String × Json)) (k : String) (v w : Json) :
    dictSet (dictSet f k v) k w = dictSet f k w := by
  induction f with
  | nil => simp [dictSet]
  | cons p rest ih =>
      obtain ⟨k', v'⟩ := p
      by_cases hk : k' = k
      · subst hk
        simp [dictSet]
      · simp [dictSet, hk, ih]

theorem lookup_append_of_none (f g : List (String × Json)) (k : String)
    (h : f.lookup k = none) : (f ++ g).lookup k = g.lookup k := by
  induction f with
  | nil => simp
  | cons p rest ih =>
      obtain ⟨k', v'⟩ := p
      by_cases hk : k = k'
      · subst hk
        rw [lookup_cons_self] at h
        exact absurd h (by simp)
      · rw [lookup_cons_ne k k' _ _ hk] at h
        rw [List.cons_append, lookup_cons_ne k k' _ _ hk]
        exact ih h

/-! ### Lemmas about `pySplit` and `repoName` -/

theorem pySplit_ne_nil (sep : Char) (cs : List Char) : pySplit sep cs ≠ [] := by
  induction cs with
  | nil => simp [pySplit]
  | cons c cs ih =>
      rw [pySplit]
      cases h : pySplit sep cs with
      | nil => exact absurd h ih
      | cons g gs => by_cases hc : c = sep <;> simp [hc]

theorem pySplit_no_sep (sep : Char) (cs : List Char) (h : sep ∉ cs) :
    pySplit sep cs = [cs] := by
  induction cs with
  | nil => rfl
  | cons c cs ih =>
      have hc : c ≠ sep := fun hc => h (hc ▸ List.mem_cons_self c cs)
      have hcs : sep ∉ cs := fun hcs => h (List.mem_cons_of_mem c hcs)
      rw [pySplit, ih hcs]
      simp [hc]

theorem pySplit_length_of_mem (sep : Char) (cs : List Char) (h : sep ∈ cs) :
    2 ≤ (pySplit sep cs).length := by
  induction cs with
  | nil => simp at h
  | cons c cs ih =>
      rw [pySplit]
      cases hp : pySplit sep cs with
      | nil => exact absurd hp (pySplit_ne_nil sep cs)
      | cons g gs =>
          by_cases hc : c = sep
          · simp [hc]
          · have hcs : sep ∈ cs := by
              rcases List.mem_cons.mp h with h1 | h1
              · exact absurd h1.symm hc
              · exact h1
            have h2 := ih hcs
            rw [hp] at h2
            simp [hc] at h2 ⊢
            omega

theorem getLastD_cons_of_ne_nil (x : List Char) (l : List (List Char))
    (hl : l ≠ []) : (x :: l).getLastD [] = l.getLastD [] := by
  cases l with
  | nil => exact absurd rfl hl
  | cons y l' => simp [List.getLastD_cons]

theorem pySplit_getLastD_append (sep : Char) (a b : List Char) :
    (pySplit sep (a ++ sep :: b)).getLastD [] = (pySplit sep b).getLastD [] := by
  induction a with
  | nil =>
      rw [List.nil_append, pySplit]
      cases hp : pySplit sep b with
      | nil => exact absurd hp (pySplit_ne_nil sep b)
      | cons g gs => simp
  | cons c a' ih =>
      rw [List.cons_append]
      cases hp : pySplit sep (a' ++ sep :: b) with
      | nil => exact absurd hp (pySplit_ne_nil sep _)
      | cons g gs =>
          have hlen : 2 ≤ (pySplit sep (a' ++ sep :: b)).length :=
            pySplit_length_of_mem sep _ (by simp)
          rw [hp] at hlen
          have hgs : gs ≠ [] := by
            cases gs with
            | nil => simp at hlen
            | cons y l => simp
          have hstep : pySplit sep (c :: (a' ++ sep :: b)) =
              if c = sep then [] :: g :: gs else (c :: g) :: gs := by
            rw [pySplit, hp]
          rw [hstep]
          by_cases hc : c = sep
          · rw [if_pos hc, getLastD_cons_of_ne_nil _ _ (by simp), ← hp, ih]
          · rw [if_neg hc, getLastD_cons_of_ne_nil _ _ hgs,
                ← getLastD_cons_of_ne_nil g gs hgs, ← hp, ih]

theorem repoName_no_sep (cs : List Char) (h : '/' ∉ cs) : repoName ⟨cs⟩ = ⟨cs⟩ := by
  show (⟨(pySplit '/' cs).getLastD []⟩ : String) = ⟨cs⟩
  rw [pySplit_no_sep '/' cs h]
  rfl

theorem repoName_after_last_sep (a b : List Char) (h : '/' ∉ b) :
    repoName ⟨a ++ '/' :: b⟩ = ⟨b⟩ := by
  show (⟨(pySplit '/' (a ++ '/' :: b)).getLastD []⟩ : String) = ⟨b⟩
  rw [pySplit_getLastD_append, pySplit_no_sep '/' b h]
  rfl

/-! ### Lemmas about the update loop -/

theorem updEntry_of_not_match (u d : String) (x : Json) (h : isMatch u x = false) :
    updEntry u d x = x := by
  simp [updEntry, h]

theorem map_updEntry_of_no_match (u d : String) (xs : List Json)
    (h : xs.any (isMatch u) = false) : xs.map (updEntry u d) = xs := by
  induction xs with
  | nil => rfl
  | cons x rest ih =>
      simp only [List.any_cons, Bool.or_eq_false_iff] at h
      simp [updEntry_of_not_match u d x h.1, ih h.2]

theorem processRepos_all_obj (u d : String) (xs : List Json)
    (h : ∀ x ∈ xs, x.isObj = true) :
    processRepos u d xs = .ok (xs.map (updEntry u d), xs.any (isMatch u)) := by
  induction xs with
  | nil => rfl
  | cons x rest ih =>
      have hx := h x (List.mem_cons_self x rest)
      have hrest : ∀ y ∈ rest, y.isObj = true := fun y hy => h y (List.mem_cons_of_mem x hy)
      cases x with
      | obj f => simp [processRepos, ih hrest]
      | null => simp [Json.isObj] at hx
      | bool b => simp [Json.isObj] at hx
      | num n => simp [Json.isObj] at hx
      | str s => simp [Json.isObj] at hx
      | arr es => simp [Json.isObj] at hx

theorem processRepos_ok_all_obj (u d : String) (xs : List Json)
    (p : List Json × Bool) (h : processRepos u d xs = .ok p) :
    ∀ x ∈ xs, x.isObj = true := by
  induction xs generalizing p with
  | nil => simp
  | cons x rest ih =>
      intro y hy
      cases x with
      | obj f =>
          rcases List.mem_cons.mp hy with hy1 | hy1
          · subst hy1
            rfl
          · cases hr : processRepos u d rest with
            | error e => rw [processRepos, hr] at h; exact absurd h (by simp)
            | ok q => exact ih q hr y hy1
      | null => simp [processRepos] at h
      | bool b => simp [processRepos] at h
      | num n => simp [processRepos] at h
      | str s => simp [processRepos] at h
      | arr es => simp [processRepos] at h

theorem isObj_updEntry (u d : String) (x : Json) :
    (updEntry u d x).isObj = x.isObj := by
  cases x with
  | obj f => simp [updEntry, setDesc] ; split <;> rfl
  | null => rfl
  | bool b => rfl
  | num n => rfl
  | str s => rfl
  | arr es => rfl

theorem isMatch_obj (u : String) (f : List (String × Json)) :
    isMatch u (Json.obj f) =
      (match f.lookup "url" with
       | some (.str s) => s == u
       | _ => false) := rfl

theorem isMatch_updEntry (u d : String) (x : Json) :
    isMatch u (updEntry u d x) = isMatch u x := by
  by_cases h : isMatch u x = true
  · cases x with
    | obj f =>
        have hurl : ("url" : String) ≠ "description" := by decide
        have hd : updEntry u d (Json.obj f) = Json.obj (dictSet f "description" (.str d)) := by
          rw [updEntry, h]
          rfl
        rw [hd, isMatch_obj, dictSet_lookup_ne f "description" "url" _ hurl, ← isMatch_obj]
    | null => simp [isMatch] at h
    | bool b => simp [isMatch] at h
    | num n => simp [isMatch] at h
    | str s => simp [isMatch] at h
    | arr es => simp [isMatch] at h
  · simp only [Bool.not_eq_true] at h
    rw [updEntry_of_not_match u d x h]

theorem updEntry_updEntry (u d : String) (x : Json) :
    updEntry u d (updEntry u d x) = updEntry u d x := by
  by_cases h : isMatch u x = true
  · cases x with
    | obj f =>
        have hurl : ("url" : String) ≠ "description" := by decide
        have hd : updEntry u d (Json.obj f) = Json.obj (dictSet f "description" (.str d)) := by
          rw [updEntry, h]
          rfl
        have hm : isMatch u (Json.obj (dictSet f "description" (.str d))) = true := by
          rw [isMatch_obj, dictSet_lookup_ne f "description" "url" _ hurl, ← isMatch_obj, h]
        have hd2 : updEntry u d (Json.obj (dictSet f "description" (.str d))) =
            Json.obj (dictSet (dictSet f "description" (.str d)) "description" (.str d)) := by
          rw [updEntry, hm]
          rfl
        rw [hd, hd2, dictSet_dictSet]
    | null => simp [isMatch] at h
    | bool b => simp [isMatch] at h
    | num n => simp [isMatch] at h
    | str s => simp [isMatch] at h
    | arr es => simp [isMatch] at h
  · simp only [Bool.not_eq_true] at h
    rw [updEntry_of_not_match u d x h, updEntry_of_not_match u d x h]

/-! ### Characterizations of `update_data` -/

theorem update_data_obj_none (fields : List (String × Json)) (u d : String)
    (h : fields.lookup "mcpRepos" = none) :
    update_data (.obj fields) u d =
      .ok (.obj (fields ++ [("mcpRepos", .arr [newEntry u d])])) := by
  simp [update_data, h, dictSet_of_lookup_none _ _ _ h]

theorem update_data_obj_arr (fields : List (String × Json)) (u d : String)
    (xs : List Json) (hl : fields.lookup "mcpRepos" = some (.arr xs))
    (hobj : ∀ x ∈ xs, x.isObj = true) :
    update_data (.obj fields) u d =
      .ok (.obj (dictSet fields "mcpRepos"
        (.arr (xs.map (updEntry u d) ++
          (if xs.any (isMatch u) then [] else [newEntry u d]))))) := by
  by_cases hm : xs.any (isMatch u) = true
  · simp [update_data, hl, processRepos_all_obj u d xs hobj, hm]
  · simp only [Bool.not_eq_true] at hm
    simp [update_data, hl, processRepos_all_obj u d xs hobj, hm]

theorem update_data_obj_bad (fields : List (String × Json)) (u d : String)
    (v : Json) (hl : fields.lookup "mcpRepos" = some v) (hv : ∀ xs, v ≠ .arr xs) :
    update_data (.obj fields) u d = .error "TypeError: mcpRepos value is not a list" := by
  cases v with
  | arr xs => exact absurd rfl (hv xs)
  | null => simp [update_data, hl]
  | bool b => simp [update_data, hl]
  | num n => simp [update_data, hl]
  | str s => simp [update_data, hl]
  | obj g => simp [update_data, hl]

theorem isMatch_newEntry (u d : String) : isMatch u (newEntry u d) = true := by
  rw [newEntry, isMatch_obj]
  rw [lookup_cons_ne "url" "name" _ _ (by decide), lookup_cons_self]
  simp

theorem newEntry_isObj (u d : String) : (newEntry u d).isObj = true := rfl

theorem updEntry_newEntry (u d : String) : updEntry u d (newEntry u d) = newEntry u d := by
  rw [updEntry, isMatch_newEntry]
  rfl

theorem map_updEntry_idem (u d : String) (xs : List Json) :
    (xs.map (updEntry u d)).map (updEntry u d) = xs.map (updEntry u d) := by
  rw [List.map_map]
  exact List.map_congr_left fun x _ => updEntry_updEntry u d x

theorem any_map_updEntry (u d : String) (xs : List Json) :
    (xs.map (updEntry u d)).any (isMatch u) = xs.any (isMatch u) := by
  induction xs with
  | nil => rfl
  | cons x rest ih => simp [isMatch_updEntry, ih]

/-- Running `update_data` on its own successful output changes nothing: the
entry written or updated by the first run is found by the second, and its
description is overwritten with the identical string. -/
theorem update_data_fixpoint (data : Json) (u d : String) (out : Json)
    (h : update_data data u d = .ok out) : update_data out u d = .ok out := by
  cases data with
  | obj fields =>
      cases hl : List.lookup "mcpRepos" fields with
      | none =>
          rw [update_data_obj_none fields u d hl] at h
          injection h with h
          subst h
          have hlk : (fields ++ [("mcpRepos", Json.arr [newEntry u d])]).lookup "mcpRepos"
              = some (Json.arr [newEntry u d]) := by
            rw [lookup_append_of_none fields _ _ hl, lookup_cons_self]
          rw [update_data_obj_arr _ u d _ hlk
            (by intro x hx; simp at hx; subst hx; rfl)]
          have hany : ([newEntry u d]).any (isMatch u) = true := by
            simp [isMatch_newEntry]
          simp only [List.map_cons, List.map_nil, updEntry_newEntry, hany, if_true,
            List.append_nil]
          rw [dictSet_of_lookup_some _ _ _ hlk]
      | some v =>
          cases v with
          | arr xs =>
              cases hp : processRepos u d xs with
              | error e => simp [update_data, hl, hp] at h
              | ok p =>
                  have hobj : ∀ x ∈ xs, x.isObj = true :=
                    processRepos_ok_all_obj u d xs p hp
                  rw [update_data_obj_arr fields u d xs hl hobj] at h
                  injection h with h
                  subst h
                  by_cases hany : xs.any (isMatch u) = true
                  · simp only [hany, if_true, List.append_nil]
                    have hlk : (dictSet fields "mcpRepos"
                        (Json.arr (xs.map (updEntry u d)))).lookup "mcpRepos"
                        = some (Json.arr (xs.map (updEntry u d))) :=
                      dictSet_lookup_self _ _ _
                    rw [update_data_obj_arr _ u d _ hlk
                      (by
                        intro x hx
                        rcases List.mem_map.mp hx with ⟨y, hy, rfl⟩
                        rw [isObj_updEntry]
                        exact hobj y hy)]
                    rw [map_updEntry_idem, any_map_updEntry, hany]
                    simp only [if_true, List.append_nil]
                    rw [dictSet_dictSet]
                  · simp only [Bool.not_eq_true] at hany
                    rw [map_updEntry_of_no_match u d xs hany] at *
                    simp only [hany, Bool.false_eq_true, if_false]
                    have hlk : (dictSet fields "mcpRepos"
                        (Json.arr (xs ++ [newEntry u d]))).lookup "mcpRepos"
                        = some (Json.arr (xs ++ [newEntry u d])) :=
                      dictSet_lookup_self _ _ _
                    rw [update_data_obj_arr _ u d _ hlk
                      (by
                        intro x hx
                        rcases List.mem_append.mp hx with hx1 | hx1
                        · exact hobj x hx1
                        · simp at hx1
                          subst hx1
                          rfl)]
                    have hany2 : (xs ++ [newEntry u d]).any (isMatch u) = true := by
                      simp [isMatch_newEntry]
                    rw [List.map_append, map_updEntry_of_no_match u d xs hany,
                      List.map_singleton, updEntry_newEntry, hany2]
                    simp only [if_true, List.append_nil]
                    rw [dictSet_dictSet]
          | null => simp [update_data, hl] at h
          | bool b => simp [update_data, hl] at h
          | num n => simp [update_data, hl] at h
          | str s => simp [update_data, hl] at h
          | obj g => simp [update_data, hl] at h
  | null => simp [update_data] at h
  | bool b => simp [update_data] at h
  | num n => simp [update_data] at h
  | str s => simp [update_data] at h
  | arr es => simp [update_data] at h

/-! ### The claims -/

/-- C1: for every document whose `mcpRepos` list (of entry objects) contains
at least one entry whose `url` field equals the given url (exact string
match), the update overwrites the `description` field of every such entry in
place and appends no new entry — the resulting list is the pointwise update
of the old one, of the same length; in particular, when two or more entries
share the given URL, all of their descriptions are updated. -/
theorem c1_updates_all_matches (fields : List (String × Json)) (u d : String)
    (xs : List Json) (hl : fields.lookup "mcpRepos" = some (.arr xs))
    (hobj : ∀ x ∈ xs, x.isObj = true) (hm : xs.any (isMatch u) = true) :
    update_data (.obj fields) u d =
      .ok (.obj (dictSet fields "mcpRepos" (.arr (xs.map (updEntry u d))))) ∧
    (xs.map (updEntry u d)).length = xs.length ∧
    ∀ x ∈ xs, isMatch u x = true →
      ∃ ef, updEntry u d x = .obj ef ∧ ef.lookup "description" = some (.str d) := by
  refine ⟨?_, List.length_map xs _, ?_⟩
  · rw [update_data_obj_arr fields u d xs hl hobj]
    simp [hm]
  · intro x hx hmx
    have hox := hobj x hx
    cases x with
    | obj ef =>
        refine ⟨dictSet ef "description" (.str d), ?_, dictSet_lookup_self _ _ _⟩
        rw [updEntry, hmx]
        rfl
    | null => simp [Json.isObj] at hox
    | bool b => simp [Json.isObj] at hox
    | num n => simp [Json.isObj] at hox
    | str s => simp [Json.isObj] at hox
    | arr es => simp [Json.isObj] at hox

/-- Witness for C1 at a document with two entries sharing the URL. -/
theorem c1_witness :
    update_data (.obj [("mcpRepos", .arr
        [.obj [("name", .str "a"), ("url", .str "u"), ("description", .str "o1")],
         .obj [("url", .str "u"), ("description", .str "o2")]])]) "u" "nd" =
      .ok (.obj [("mcpRepos", .arr
        ([.obj [("name", .str "a"), ("url", .str "u"), ("description", .str "o1")],
          .obj [("url", .str "u"), ("description", .str "o2")]].map (updEntry "u" "nd")))]) :=
  (c1_updates_all_matches [("mcpRepos", .arr
      [.obj [("name", .str "a"), ("url", .str "u"), ("description", .str "o1")],
       .obj [("url", .str "u"), ("description", .str "o2")]])] "u" "nd"
    [.obj [("name", .str "a"), ("url", .str "u"), ("description", .str "o1")],
     .obj [("url", .str "u"), ("description", .str "o2")]]
    rfl (by decide) rfl).1

/-- C2: for every document lacking the `mcpRepos` field, the update produces
a document whose `mcpRepos` list contains exactly one entry, holding the
given url, the given description and the derived name; the list field is
created (at the end of the document) before insertion. -/
theorem c2_creates_list (fields : List (String × Json)) (u d : String)
    (h : fields.lookup "mcpRepos" = none) :
    update_data (.obj fields) u d =
      .ok (.obj (fields ++ [("mcpRepos", .arr
        [.obj [("name", .str (repoName u)), ("url", .str u),
               ("description", .str d)]])])) :=
  update_data_obj_none fields u d h

/-- Witness for C2 on the document `{"other": "keep"}`. -/
theorem c2_witness :
    update_data (.obj [("other", .str "keep")]) "https://x/y/z" "desc" =
      .ok (.obj [("other", .str "keep"),
        ("mcpRepos", .arr [.obj [("name", .str "z"), ("url", .str "https://x/y/z"),
          ("description", .str "desc")]])]) :=
  c2_creates_list [("other", .str "keep")] "https://x/y/z" "desc" rfl

/-- C3: for every document containing exactly one entry whose url equals the
given url, the update changes only that entry's `description` field: the
entry's other fields (in particular `name` and `url`), all other entries
(before and after it, in place), and all other fields of the document are
unchanged in the output. -/
theorem c3_frame (fields : List (String × Json)) (u d : String)
    (as bs : List Json) (ef : List (String × Json))
    (hl : fields.lookup "mcpRepos" = some (.arr (as ++ .obj ef :: bs)))
    (hoas : ∀ x ∈ as, x.isObj = true) (hobs : ∀ x ∈ bs, x.isObj = true)
    (hme : isMatch u (.obj ef) = true)
    (hmas : as.any (isMatch u) = false) (hmbs : bs.any (isMatch u) = false) :
    update_data (.obj fields) u d =
      .ok (.obj (dictSet fields "mcpRepos"
        (.arr (as ++ .obj (dictSet ef "description" (.str d)) :: bs)))) ∧
    (∀ k, k ≠ "mcpRepos" →
      (dictSet fields "mcpRepos"
        (.arr (as ++ .obj (dictSet ef "description" (.str d)) :: bs))).lookup k
        = fields.lookup k) ∧
    (∀ k, k ≠ "description" →
      (dictSet ef "description" (.str d)).lookup k = ef.lookup k) ∧
    (dictSet ef "description" (.str d)).lookup "description" = some (.str d) := by
  have hobj : ∀ x ∈ as ++ .obj ef :: bs, x.isObj = true := by
    intro x hx
    rcases List.mem_append.mp hx with hx1 | hx1
    · exact hoas x hx1
    · rcases List.mem_cons.mp hx1 with hx2 | hx2
      · subst hx2
        rfl
      · exact hobs x hx2
  have hany : (as ++ .obj ef :: bs).any (isMatch u) = true := by
    simp [hme]
  refine ⟨?_, fun k hk => dictSet_lookup_ne fields "mcpRepos" k _ hk,
    fun k hk => dictSet_lookup_ne ef "description" k _ hk,
    dictSet_lookup_self _ _ _⟩
  rw [update_data_obj_arr fields u d _ hl hobj]
  rw [List.map_append, List.map_cons, map_updEntry_of_no_match u d as hmas,
    map_updEntry_of_no_match u d bs hmbs, hany]
  have hupd : updEntry u d (.obj ef) = .obj (dictSet ef "description" (.str d)) := by
    rw [updEntry, hme]
    rfl
  rw [hupd]
  simp

/-- Witness for C3 on a three-entry document with one match in the middle. -/
theorem c3_witness :
    update_data (.obj [("ver", .num 1), ("mcpRepos", .arr
        [.obj [("url", .str "a")],
         .obj [("name", .str "m"), ("url", .str "u"), ("description", .str "old")],
         .obj [("url", .str "b")]])]) "u" "nd" =
      .ok (.obj (dictSet [("ver", .num 1), ("mcpRepos", .arr
        [.obj [("url", .str "a")],
         .obj [("name", .str "m"), ("url", .str "u"), ("description", .str "old")],
         .obj [("url", .str "b")]])] "mcpRepos"
        (.arr ([.obj [("url", .str "a")]] ++
          .obj (dictSet [("name", .str "m"), ("url", .str "u"), ("description", .str "old")]
            "description" (.str "nd")) :: [.obj [("url", .str "b")]])))) :=
  (c3_frame [("ver", .num 1), ("mcpRepos", .arr
      [.obj [("url", .str "a")],
       .obj [("name", .str "m"), ("url", .str "u"), ("description", .str "old")],
       .obj [("url", .str "b")]])] "u" "nd"
    [.obj [("url", .str "a")]] [.obj [("url", .str "b")]]
    [("name", .str "m"), ("url", .str "u"), ("description", .str "old")]
    rfl (by decide) (by decide) rfl rfl rfl).1

/-- C4: the synthesized entry's name equals the substring of the url after
the last `/` separator — or the whole url when no `/` occurs — and its
`url` and `description` fields are the given arguments verbatim; in
particular `https://example.com/org/my-repo` yields name `my-repo` and
`toolname` yields name `toolname`. -/
theorem c4_name_derivation :
    (∀ cs : List Char, '/' ∉ cs → repoName ⟨cs⟩ = ⟨cs⟩) ∧
    (∀ a b : List Char, '/' ∉ b → repoName ⟨a ++ '/' :: b⟩ = ⟨b⟩) ∧
    (∀ u d : String, newEntry u d =
      .obj [("name", .str (repoName u)), ("url", .str u),
            ("description", .str d)]) ∧
    repoName "https://example.com/org/my-repo" = "my-repo" ∧
    repoName "toolname" = "toolname" :=
  ⟨repoName_no_sep, repoName_after_last_sep, fun _ _ => rfl, by decide, by decide⟩

/-- Witness for C4 on urls with and without a separator. -/
theorem c4_witness :
    repoName ⟨['a', 'b']⟩ = ⟨['a', 'b']⟩ ∧
    repoName ⟨['x', 'y', '/', 'z'] ++ '/' :: ['a', 'b']⟩ = ⟨['a', 'b']⟩ :=
  ⟨c4_name_derivation.1 ['a', 'b'] (by decide),
   c4_name_derivation.2.1 ['x', 'y', '/', 'z'] ['a', 'b'] (by decide)⟩

/-- C5: the update routine never propagates an exception: whenever the read
step, the in-memory mutation, or the write step fails, the error is caught,
the single line `Error updating JSON file: <details>` goes to stderr and the
function returns `false`; when no step fails it returns `true` (and prints
nothing). -/
theorem c5_catches_all_errors (env : Env) (u d : String) :
    (∀ e, env.readResult = .error e →
      update_mcps env u d = (false, none, [errMsg e])) ∧
    (∀ data e, env.readResult = .ok data → update_data data u d = .error e →
      update_mcps env u d = (false, none, [errMsg e])) ∧
    (∀ data out e, env.readResult = .ok data → update_data data u d = .ok out →
      env.writeError = some e →
      update_mcps env u d = (false, none, [errMsg e])) ∧
    (∀ data out, env.readResult = .ok data → update_data data u d = .ok out →
      env.writeError = none →
      update_mcps env u d = (true, some out, [])) := by
  obtain ⟨r, w⟩ := env
  refine ⟨?_, ?_, ?_, ?_⟩
  · intro e he
    simp only at he
    subst he
    rfl
  · intro data e hr hu
    simp only at hr
    subst hr
    simp [update_mcps, hu]
  · intro data out e hr hu hw
    simp only at hr hw
    subst hr
    subst hw
    simp [update_mcps, hu]
  · intro data out hr hu hw
    simp only at hr hw
    subst hr
    subst hw
    simp [update_mcps, hu]

/-- Witness for C5: one concrete run per failure mode, plus a success. -/
theorem c5_witness :
    update_mcps ⟨.error "No such file", none⟩ "u" "d"
      = (false, none, [errMsg "No such file"]) ∧
    update_mcps ⟨.ok (.num 3), none⟩ "u" "d"
      = (false, none, [errMsg "AttributeError: object has no attribute get"]) ∧
    update_mcps ⟨.ok (.obj []), some "disk full"⟩ "u" "d"
      = (false, none, [errMsg "disk full"]) ∧
    update_mcps ⟨.ok (.obj []), none⟩ "u" "d"
      = (true, some (.obj [("mcpRepos", .arr [newEntry "u" "d"])]), []) :=
  ⟨(c5_catches_all_errors ⟨.error "No such file", none⟩ "u" "d").1 "No such file" rfl,
   (c5_catches_all_errors ⟨.ok (.num 3), none⟩ "u" "d").2.1 (.num 3)
     "AttributeError: object has no attribute get" rfl rfl,
   (c5_catches_all_errors ⟨.ok (.obj []), some "disk full"⟩ "u" "d").2.2.1 (.obj [])
     (.obj [("mcpRepos", .arr [newEntry "u" "d"])]) "disk full" rfl rfl rfl,
   (c5_catches_all_errors ⟨.ok (.obj []), none⟩ "u" "d").2.2.2 (.obj [])
     (.obj [("mcpRepos", .arr [newEntry "u" "d"])]) rfl rfl rfl⟩

/-- C6 counterexample: on the document `{"mcpRepos": 5}` (entry-list field
present but not a list) the update does not treat the field as absent — it
fails with an error, whereas on the document `{}` (field truly missing) it
succeeds and appends a new entry. -/
theorem c6_counterexample :
    update_data (.obj [("mcpRepos", .num 5)]) "u" "d"
      = .error "TypeError: mcpRepos value is not a list" ∧
    update_data (.obj []) "u" "d"
      = .ok (.obj [("mcpRepos", .arr [newEntry "u" "d"])]) :=
  ⟨rfl, rfl⟩

/-- C6 amended: for every document in which `mcpRepos` is present but not a
list, the update fails rather than treating the field as absent: the
iteration (or append) raises, the exception is caught, the error line is
printed and `update_mcps` returns `false`. -/
theorem c6_amended_wrong_typed_fails (fields : List (String × Json))
    (u d : String) (v : Json) (w : Option String)
    (hl : fields.lookup "mcpRepos" = some v) (hv : ∀ xs, v ≠ .arr xs) :
    update_data (.obj fields) u d
      = .error "TypeError: mcpRepos value is not a list" ∧
    update_mcps ⟨.ok (.obj fields), w⟩ u d =
      (false, none, [errMsg "TypeError: mcpRepos value is not a list"]) := by
  have h1 := update_data_obj_bad fields u d v hl hv
  exact ⟨h1, by simp [update_mcps, h1]⟩

/-- Witness for the amended C6 on the document `{"mcpRepos": 5}`. -/
theorem c6_witness :
    update_data (.obj [("mcpRepos", .num 5)]) "x" "y"
      = .error "TypeError: mcpRepos value is not a list" ∧
    update_mcps ⟨.ok (.obj [("mcpRepos", .num 5)]), none⟩ "x" "y" =
      (false, none, [errMsg "TypeError: mcpRepos value is not a list"]) :=
  c6_amended_wrong_typed_fails [("mcpRepos", .num 5)] "x" "y" (.num 5) none rfl
    (fun xs h => by cases h)

/-- C7: invoked with fewer than three positional arguments the program
prints the usage message to stdout, exits with status 1 and writes no file;
invoked with exactly three arguments, when the update succeeds it exits
with status 0. -/
theorem c7_cli (argv : List String) (env : Env) :
    (argv.length < 4 → run_main argv env = ⟨1, [usageMsg], [], none⟩) ∧
    (∀ prog f u d out, argv = [prog, f, u, d] →
      update_mcps env u d = (true, some out, []) →
      run_main argv env = ⟨0, [], [], some out⟩) := by
  constructor
  · intro h
    simp [run_main, h]
  · intro prog f u d out hargv hok
    subst hargv
    simp [run_main, hok]

/-- Witness for C7: a one-argument run and a successful three-argument run. -/
theorem c7_witness :
    run_main ["mcps.py", "f.json"] ⟨.ok (.obj []), none⟩
      = ⟨1, [usageMsg], [], none⟩ ∧
    run_main ["mcps.py", "f.json", "u", "d"] ⟨.ok (.obj []), none⟩
      = ⟨0, [], [], some (.obj [("mcpRepos", .arr [newEntry "u" "d"])])⟩ :=
  ⟨(c7_cli ["mcps.py", "f.json"] ⟨.ok (.obj []), none⟩).1 (by decide),
   (c7_cli ["mcps.py", "f.json", "u", "d"] ⟨.ok (.obj []), none⟩).2
     "mcps.py" "f.json" "u" "d" (.obj [("mcpRepos", .arr [newEntry "u" "d"])]) rfl rfl⟩

/-- C8: for every successful invocation on a document with an entry list,
the relative order of the pre-existing entries is preserved — the output
list is the pointwise (position-by-position) update of the input list, with
non-matching entries kept identical — and a newly synthesized entry, when
one is created, appears at the end of the list. -/
theorem c8_order_preserved (fields : List (String × Json)) (u d : String)
    (xs : List Json) (hl : fields.lookup "mcpRepos" = some (.arr xs))
    (hobj : ∀ x ∈ xs, x.isObj = true) :
    update_data (.obj fields) u d =
      .ok (.obj (dictSet fields "mcpRepos"
        (.arr (xs.map (updEntry u d) ++
          (if xs.any (isMatch u) then [] else [newEntry u d]))))) ∧
    (xs.map (updEntry u d)).length = xs.length ∧
    (∀ x, isMatch u x = false → updEntry u d x = x) :=
  ⟨update_data_obj_arr fields u d xs hl hobj, List.length_map xs _,
   fun x hx => updEntry_of_not_match u d x hx⟩

/-- Witness for C8 on a no-match document: the old entry stays first, the
new entry is appended at the end. -/
theorem c8_witness :
    update_data (.obj [("mcpRepos", .arr [.obj [("url", .str "a")]])]) "u" "d" =
      .ok (.obj (dictSet [("mcpRepos", .arr [.obj [("url", .str "a")]])] "mcpRepos"
        (.arr ([.obj [("url", .str "a")]].map (updEntry "u" "d") ++
          (if ([.obj [("url", .str "a")]].any (isMatch "u")) then []
           else [newEntry "u" "d"]))))) :=
  (c8_order_preserved [("mcpRepos", .arr [.obj [("url", .str "a")]])] "u" "d"
    [.obj [("url", .str "a")]] rfl (by decide)).1

/-- C9: the update is idempotent on the document state: applying it twice
with the same url and description yields the same final document as
applying it once — the second application finds the entry written by the
first and overwrites its description with the identical value (and a failed
application leaves the document unchanged both times). -/
theorem c9_idempotent (data : Json) (u d : String) :
    applyUpdate u d (applyUpdate u d data) = applyUpdate u d data := by
  cases h : update_data data u d with
  | ok out =>
      have h2 := update_data_fixpoint data u d out h
      simp [applyUpdate, h, h2]
  | error e => simp [applyUpdate, h]

/-- C10: for every url whose last character is `/` (with no matching entry
in the document), the synthesized entry's name is the empty string — the
substring after the last separator is empty — and the entry is still
appended, with that empty name. -/
theorem c10_trailing_slash (s : String) (fields : List (String × Json))
    (xs : List Json) (d : String)
    (hl : fields.lookup "mcpRepos" = some (.arr xs))
    (hobj : ∀ x ∈ xs, x.isObj = true)
    (hnm : xs.any (isMatch (s ++ "/")) = false) :
    repoName (s ++ "/") = "" ∧
    update_data (.obj fields) (s ++ "/") d =
      .ok (.obj (dictSet fields "mcpRepos"
        (.arr (xs ++ [.obj [("name", .str ""), ("url", .str (s ++ "/")),
          ("description", .str d)]])))) := by
  have hdata : (s ++ "/") = (⟨s.data ++ '/' :: []⟩ : String) := by
    have h1 : (s ++ "/").data = s.data ++ '/' :: [] := by
      rw [String.data_append]
    exact congrArg String.mk h1
  have hname : repoName (s ++ "/") = "" := by
    rw [hdata, repoName_after_last_sep s.data [] (by simp)]
  refine ⟨hname, ?_⟩
  rw [update_data_obj_arr fields (s ++ "/") d xs hl hobj]
  rw [map_updEntry_of_no_match (s ++ "/") d xs hnm, hnm]
  simp only [Bool.false_eq_true, if_false]
  rw [newEntry, hname]

/-- Witness for C10 on the document `{"mcpRepos": []}` and url `https://x/`. -/
theorem c10_witness :
    repoName ("https://x" ++ "/") = "" ∧
    update_data (.obj [("mcpRepos", .arr [])]) ("https://x" ++ "/") "d" =
      .ok (.obj (dictSet [("mcpRepos", .arr [])] "mcpRepos"
        (.arr ([] ++ [.obj [("name", .str ""), ("url", .str ("https://x" ++ "/")),
          ("description", .str "d")]])))) :=
  c10_trailing_slash "https://x" [("mcpRepos", .arr [])] [] "d" rfl (by simp) rfl
